import Mathlib

/-!
Verification development for the consistency core of CollabCanvas
(src/src/utils/commands.ts and src/src/contexts/CanvasContext.tsx).

Coordinates and sizes are modelled as rationals (JS numbers used here stay
in exact small-magnitude arithmetic), timestamps as naturals, object ids as
strings.  Every definition is a direct translation of the corresponding
TypeScript; line references point into the two source files.
-/

/-- JS expression `v || d` on numbers: `0` is falsy and falls back to `d`. -/
def jsOr (v d : Rat) : Rat := if v = 0 then d else v

/-- JS expression `v || d` where `v` is a possibly-absent number
(`undefined` and `0` are falsy). -/
def jsOrOpt (v : Option Rat) (d : Rat) : Rat :=
  match v with
  | none => d
  | some x => if x = 0 then d else x

/-- The fixed set of object type tags (src/src/types, per the spec data model). -/
inductive ObjType where
  | rectangle | circle | ellipse | polygon | line | text | image | group
  deriving DecidableEq

/-- A canvas object (`CanvasObject`).  The fields are the ones the
consistency core reads or writes: identity, type tag, geometry, z-order,
timestamps, ownership and the group payload. -/
structure CanvasObject where
  id : String
  type : ObjType
  x : Rat
  y : Rat
  x2 : Option Rat
  y2 : Option Rat
  width : Rat
  height : Rat
  fill : String
  zIndex : Rat
  nickname : Option String
  shadow : Bool
  groupedObjects : Option (List String)
  createdAt : Nat
  lastModified : Nat
  createdBy : String
  deriving DecidableEq

/-- A `Partial<CanvasObject>`: each mutable field is either present (with a
new value) or absent.  `id`, `type`, `createdAt`, `createdBy` are never
patched (identifiers and type tags are immutable per the data model), and
`lastModified` is always overwritten by `Date.now()` in both `execute` and
`undo`, so a patch entry for it would be dead. -/
structure ObjPatch where
  x? : Option Rat := none
  y? : Option Rat := none
  x2? : Option (Option Rat) := none
  y2? : Option (Option Rat) := none
  width? : Option Rat := none
  height? : Option Rat := none
  fill? : Option String := none
  zIndex? : Option Rat := none
  nickname? : Option (Option String) := none
  shadow? : Option Bool := none
  groupedObjects? : Option (Option (List String)) := none
  deriving DecidableEq

/-- JS object spread `{ ...obj, ...updates }`: present patch fields win. -/
def applyPatch (o : CanvasObject) (p : ObjPatch) : CanvasObject :=
  { o with
    x := p.x?.getD o.x
    y := p.y?.getD o.y
    x2 := p.x2?.getD o.x2
    y2 := p.y2?.getD o.y2
    width := p.width?.getD o.width
    height := p.height?.getD o.height
    fill := p.fill?.getD o.fill
    zIndex := p.zIndex?.getD o.zIndex
    nickname := p.nickname?.getD o.nickname
    shadow := p.shadow?.getD o.shadow
    groupedObjects := p.groupedObjects?.getD o.groupedObjects }

/-- `{ ...obj, ...updates, lastModified: Date.now() }`
(commands.ts lines 207-210 and 229-231). -/
def applyUpdates (o : CanvasObject) (p : ObjPatch) (now : Nat) : CanvasObject :=
  { applyPatch o p with lastModified := now }

/-- The inverse payload captured by `updateObject` (CanvasContext.tsx lines
173-177): for each key present in `updates`, the current value of the
object at construction time. -/
def capturePatch (o : CanvasObject) (p : ObjPatch) : ObjPatch where
  x? := p.x?.map fun _ => o.x
  y? := p.y?.map fun _ => o.y
  x2? := p.x2?.map fun _ => o.x2
  y2? := p.y2?.map fun _ => o.y2
  width? := p.width?.map fun _ => o.width
  height? := p.height?.map fun _ => o.height
  fill? := p.fill?.map fun _ => o.fill
  zIndex? := p.zIndex?.map fun _ => o.zIndex
  nickname? := p.nickname?.map fun _ => o.nickname
  shadow? := p.shadow?.map fun _ => o.shadow
  groupedObjects? := p.groupedObjects?.map fun _ => o.groupedObjects

/-- `AddObjectCommand.execute` local-state part (commands.ts lines 51-65):
skip if an object with the id already exists, otherwise append. -/
def AddObjectCommand.executeLocal (object : CanvasObject)
    (prev : List CanvasObject) : List CanvasObject :=
  if prev.any (fun obj => obj.id == object.id) then prev else prev ++ [object]

/-- `AddObjectCommand.undo` local-state part (commands.ts lines 67-78):
remove every object with the id. -/
def AddObjectCommand.undoLocal (object : CanvasObject)
    (prev : List CanvasObject) : List CanvasObject :=
  prev.filter (fun obj => obj.id != object.id)

/-- `DeleteObjectCommand.execute` local-state part (commands.ts lines 106-117). -/
def DeleteObjectCommand.executeLocal (object : CanvasObject)
    (prev : List CanvasObject) : List CanvasObject :=
  prev.filter (fun obj => obj.id != object.id)

/-- `DeleteObjectCommand.undo` local-state part (commands.ts lines 119-133):
re-insert the captured object at the end unless the id is already present. -/
def DeleteObjectCommand.undoLocal (object : CanvasObject)
    (prev : List CanvasObject) : List CanvasObject :=
  if prev.any (fun obj => obj.id == object.id) then prev else prev ++ [object]

/-- `UpdateObjectCommand.execute` local-state part (commands.ts lines 203-223). -/
def UpdateObjectCommand.executeLocal (objectId : String) (updates : ObjPatch)
    (now : Nat) (prev : List CanvasObject) : List CanvasObject :=
  prev.map fun obj => if obj.id = objectId then applyUpdates obj updates now else obj

/-- `UpdateObjectCommand.undo` local-state part (commands.ts lines 225-245):
apply the captured previous state, again stamping `lastModified`. -/
def UpdateObjectCommand.undoLocal (objectId : String) (previousState : ObjPatch)
    (now : Nat) (prev : List CanvasObject) : List CanvasObject :=
  prev.map fun obj => if obj.id = objectId then applyUpdates obj previousState now else obj

/-- One entry of `UpdateMultipleObjectsCommand` (commands.ts line 505). -/
structure UpdateItem where
  id : String
  updates : ObjPatch
  previousState : ObjPatch
  deriving DecidableEq

/-- `UpdateMultipleObjectsCommand.execute` local-state part (commands.ts
lines 521-523).  `Promise.all` starts the sub-commands in list order and
each one performs its synchronous local mutation before its first await,
so the local effect is the left fold of the single updates. -/
def UpdateMultipleObjectsCommand.executeLocal (items : List UpdateItem)
    (now : Nat) (prev : List CanvasObject) : List CanvasObject :=
  items.foldl (fun acc it => UpdateObjectCommand.executeLocal it.id it.updates now acc) prev

/-- `UpdateMultipleObjectsCommand.undo` local-state part (commands.ts lines
525-530): sub-commands undone in strict reverse list order. -/
def UpdateMultipleObjectsCommand.undoLocal (items : List UpdateItem)
    (now : Nat) (prev : List CanvasObject) : List CanvasObject :=
  items.foldr (fun it acc => UpdateObjectCommand.undoLocal it.id it.previousState now acc) prev

/-- `CreateGroupCommand.execute` local-state part (commands.ts lines 559-570). -/
def CreateGroupCommand.executeLocal (groupObject : CanvasObject)
    (prev : List CanvasObject) : List CanvasObject :=
  if prev.any (fun obj => obj.id == groupObject.id) then prev else prev ++ [groupObject]

/-- `CreateGroupCommand.undo` local-state part (commands.ts lines 572-578). -/
def CreateGroupCommand.undoLocal (groupObject : CanvasObject)
    (prev : List CanvasObject) : List CanvasObject :=
  prev.filter (fun obj => obj.id != groupObject.id)

/-- `CommandHistory` (commands.ts lines 589-592): the ordered operation list
and the cursor (`currentIndex`), which starts at `-1`. -/
structure CommandHistory (α : Type) where
  history : List α
  currentIndex : Int
  deriving DecidableEq

/-- `maxHistorySize` (commands.ts line 592). -/
def maxHistorySize : Nat := 100

/-- The truncate-and-append step of `executeCommand` (commands.ts lines
598-605): drop everything after the cursor, then push the new command. -/
def CommandHistory.truncAppend {α : Type} (h : CommandHistory α) (c : α) : List α :=
  (if h.currentIndex < (h.history.length : Int) - 1 then
    h.history.take (h.currentIndex + 1).toNat
  else h.history) ++ [c]

/-- The history-mutation phase of `executeCommand` (commands.ts lines
597-611): truncate, append, advance the cursor, then evict the oldest
entry (shifting and decrementing the cursor) if the cap is exceeded.  All
of this happens before `command.execute()` is awaited (line 614); the
execution phase is modelled separately by `Cmd.executeLocal`. -/
def CommandHistory.executeCommandLog {α : Type} (h : CommandHistory α) (c : α) :
    CommandHistory α :=
  if (h.truncAppend c).length > maxHistorySize then
    ⟨(h.truncAppend c).drop 1, h.currentIndex + 1 - 1⟩
  else
    ⟨h.truncAppend c, h.currentIndex + 1⟩

/-- `canUndo` (commands.ts lines 650-652). -/
def CommandHistory.canUndo {α : Type} (h : CommandHistory α) : Bool :=
  decide (0 ≤ h.currentIndex)

/-- `canRedo` (commands.ts lines 657-659). -/
def CommandHistory.canRedo {α : Type} (h : CommandHistory α) : Bool :=
  decide (h.currentIndex < (h.history.length : Int) - 1)

/-- The cursor move of `CommandHistory.undo` (commands.ts lines 620-630);
the store effect of the undone command is modelled separately. -/
def CommandHistory.undoLog {α : Type} (h : CommandHistory α) : CommandHistory α :=
  if h.canUndo then { h with currentIndex := h.currentIndex - 1 } else h

/-- The cursor move of `CommandHistory.redo` (commands.ts lines 635-645). -/
def CommandHistory.redoLog {α : Type} (h : CommandHistory α) : CommandHistory α :=
  if h.canRedo then { h with currentIndex := h.currentIndex + 1 } else h

/-- `clear` (commands.ts lines 664-667). -/
def CommandHistory.clearLog {α : Type} (_h : CommandHistory α) : CommandHistory α :=
  ⟨[], -1⟩

/-- The four public calls that drive the Operation Log. -/
inductive LogOp (α : Type) where
  | commit (c : α)
  | undoOp
  | redoOp
  | clearOp
  deriving DecidableEq

/-- Effect of one Operation Log call on the log state. -/
def applyLog {α : Type} (h : CommandHistory α) : LogOp α → CommandHistory α
  | .commit c => h.executeCommandLog c
  | .undoOp => h.undoLog
  | .redoOp => h.redoLog
  | .clearOp => h.clearLog

/-- Effect of a sequence of Operation Log calls. -/
def applyLogs {α : Type} (h : CommandHistory α) (ops : List (LogOp α)) :
    CommandHistory α :=
  ops.foldl applyLog h

/-- Log states reachable from the fresh, empty history. -/
inductive ReachableLog {α : Type} : CommandHistory α → Prop where
  | empty : ReachableLog ⟨[], -1⟩
  | step {h : CommandHistory α} (op : LogOp α) :
      ReachableLog h → ReachableLog (applyLog h op)

/-- The axis-aligned bounds accumulator of `createGroup`
(CanvasContext.tsx lines 272-297). -/
structure Bounds where
  minX : Rat
  minY : Rat
  maxX : Rat
  maxY : Rat
  deriving DecidableEq

/-- Extent of a single object, from the `forEach` body of `createGroup`
(CanvasContext.tsx lines 274-297): a line spans `(x, y)` and
`(x2 || x, y2 || y)`; a circle is its center plus/minus `width / 2`; every
other type is its center plus/minus half width and half height. -/
def objExtent (obj : CanvasObject) : Bounds :=
  if obj.type = .line then
    let ex := jsOrOpt obj.x2 obj.x
    let ey := jsOrOpt obj.y2 obj.y
    ⟨min obj.x ex, min obj.y ey, max obj.x ex, max obj.y ey⟩
  else if obj.type = .circle then
    let radius := obj.width / 2
    ⟨obj.x - radius, obj.y - radius, obj.x + radius, obj.y + radius⟩
  else
    let halfWidth := obj.width / 2
    let halfHeight := obj.height / 2
    ⟨obj.x - halfWidth, obj.y - halfHeight, obj.x + halfWidth, obj.y + halfHeight⟩

/-- Union of two bounds (the running min/max of the `forEach`). -/
def mergeBounds (a b : Bounds) : Bounds :=
  ⟨min a.minX b.minX, min a.minY b.minY, max a.maxX b.maxX, max a.maxY b.maxY⟩

/-- Bounds of a nonempty object list.  The source seeds the fold with
`Infinity` sentinels; for a nonempty list that is the same as seeding with
the first extent, which keeps the model inside the rationals. -/
def boundsOfNE (m : CanvasObject) (ms : List CanvasObject) : Bounds :=
  ms.foldl (fun b o => mergeBounds b (objExtent o)) (objExtent m)

/-- The padding margin added around the union (CanvasContext.tsx line 300). -/
def groupPadding : Rat := 20

/-- The group object built by `createGroup` (CanvasContext.tsx lines
299-332): pad the union by 20 on every side, derive size and center from
the padded box, and take one plus the members maximal z-order.  The empty
member list would produce non-finite JS numbers (`Infinity` bounds,
`Math.max()` returning negative infinity); that degenerate branch is not
representable in the rationals and is returned as a zero box; no claim
concerns it, since every scenario below has at least one member. -/
def mkGroupObject (selectedObjects : List CanvasObject) (selectedIds : List String)
    (uid gid : String) (now : Nat) : CanvasObject :=
  match selectedObjects with
  | [] =>
    { id := gid, type := .group, x := 0, y := 0, x2 := none, y2 := none,
      width := 0, height := 0, fill := "#000000", zIndex := 0,
      nickname := some ("Group of " ++ toString selectedIds.length),
      shadow := false, groupedObjects := some selectedIds,
      createdAt := now, lastModified := now, createdBy := uid }
  | m :: ms =>
    let b := boundsOfNE m ms
    let minX := b.minX - groupPadding
    let minY := b.minY - groupPadding
    let maxX := b.maxX + groupPadding
    let maxY := b.maxY + groupPadding
    let width := maxX - minX
    let height := maxY - minY
    let centerX := minX + width / 2
    let centerY := minY + height / 2
    let maxZ := (ms.map fun o => jsOr o.zIndex 0).foldl max (jsOr m.zIndex 0)
    { id := gid, type := .group, x := centerX, y := centerY, x2 := none, y2 := none,
      width := width, height := height, fill := "#000000", zIndex := maxZ + 1,
      nickname := some ("Group of " ++ toString selectedIds.length),
      shadow := false, groupedObjects := some selectedIds,
      createdAt := now, lastModified := now, createdBy := uid }

/-- Extent rule exactly as the spec words it (spec section 4.3): a line
extent spans both endpoints `(x, y)` and `(x2, y2)`; circles and the other
types read as in the source.  This is the comparison definition for the
refinement claim about the bounding-box algorithm; it differs from
`objExtent` only in not treating a zero second-endpoint coordinate as
absent. -/
def specObjExtent (obj : CanvasObject) : Bounds :=
  if obj.type = .line then
    let ex := obj.x2.getD obj.x
    let ey := obj.y2.getD obj.y
    ⟨min obj.x ex, min obj.y ey, max obj.x ex, max obj.y ey⟩
  else if obj.type = .circle then
    let radius := obj.width / 2
    ⟨obj.x - radius, obj.y - radius, obj.x + radius, obj.y + radius⟩
  else
    let halfWidth := obj.width / 2
    let halfHeight := obj.height / 2
    ⟨obj.x - halfWidth, obj.y - halfHeight, obj.x + halfWidth, obj.y + halfHeight⟩

/-- Bounds of a nonempty list under the spec extent rule. -/
def specBoundsOfNE (m : CanvasObject) (ms : List CanvasObject) : Bounds :=
  ms.foldl (fun b o => mergeBounds b (specObjExtent o)) (specObjExtent m)

/-- Padded group box `(x, y, width, height)` under the spec extent rule. -/
def specGroupBox (m : CanvasObject) (ms : List CanvasObject) :
    Rat × Rat × Rat × Rat :=
  let b := specBoundsOfNE m ms
  let minX := b.minX - groupPadding
  let minY := b.minY - groupPadding
  let maxX := b.maxX + groupPadding
  let maxY := b.maxY + groupPadding
  let width := maxX - minX
  let height := maxY - minY
  (minX + width / 2, minY + height / 2, width, height)

/-- The shared-store primitives an Operation invokes (CanvasContext.tsx
lines 89-113): full-object upsert, removal, and merge-update. -/
inductive FirestoreEffect where
  | put (o : CanvasObject)
  | del (id : String)
  | merge (id : String) (p : ObjPatch)
  deriving DecidableEq

/-- The tagged Operation variants (spec section 9 sum-type reading of the
command classes in commands.ts). -/
inductive Cmd where
  | addObj (object : CanvasObject)
  | deleteObj (object : CanvasObject)
  | updateObj (objectId : String) (updates previousState : ObjPatch)
  | updateMultiple (items : List UpdateItem)
  | createGroupCmd (groupObject : CanvasObject) (groupedObjectIds : List String)
  deriving DecidableEq

/-- `execute()` of each variant: the synchronous local mutation followed by
the shared-store call it issues. -/
def Cmd.executeLocal (c : Cmd) (now : Nat) (objs : List CanvasObject) :
    List CanvasObject × List FirestoreEffect :=
  match c with
  | .addObj o => (AddObjectCommand.executeLocal o objs, [.put o])
  | .deleteObj o => (DeleteObjectCommand.executeLocal o objs, [.del o.id])
  | .updateObj objectId updates _prev =>
    (UpdateObjectCommand.executeLocal objectId updates now objs, [.merge objectId updates])
  | .updateMultiple items =>
    (UpdateMultipleObjectsCommand.executeLocal items now objs,
      items.map fun it => .merge it.id it.updates)
  | .createGroupCmd g _ids => (CreateGroupCommand.executeLocal g objs, [.put g])

/-- `undo()` of each variant. -/
def Cmd.undoLocal (c : Cmd) (now : Nat) (objs : List CanvasObject) :
    List CanvasObject × List FirestoreEffect :=
  match c with
  | .addObj o => (AddObjectCommand.undoLocal o objs, [.del o.id])
  | .deleteObj o => (DeleteObjectCommand.undoLocal o objs, [.put o])
  | .updateObj objectId _updates prev =>
    (UpdateObjectCommand.undoLocal objectId prev now objs, [.merge objectId prev])
  | .updateMultiple items =>
    (UpdateMultipleObjectsCommand.undoLocal items now objs,
      items.reverse.map fun it => .merge it.id it.previousState)
  | .createGroupCmd g _ids => (CreateGroupCommand.undoLocal g objs, [.del g.id])

/-- Outcome tag for one snapshot delivery, mirroring the three paths of
`setObjects` (CanvasContext.tsx lines 355-378). -/
inductive ReconcileResult where
  | skippedInFlight
  | skippedIdentical
  | replaced
  deriving DecidableEq

/-- `setObjects` (CanvasContext.tsx lines 355-378): drop the snapshot while
a command is executing; drop it when it is structurally identical to the
current store (the source compares `JSON.stringify` images, which on this
model coincides with structural equality) and keep the previous list
reference; otherwise replace the store wholesale.  Returns the store
exposed downstream plus the taken path. -/
def CanvasContext.setObjects (isExecutingCommand : Bool)
    (prev newObjects : List CanvasObject) : List CanvasObject × ReconcileResult :=
  if isExecutingCommand then (prev, .skippedInFlight)
  else if prev = newObjects then (prev, .skippedIdentical)
  else (newObjects, .replaced)

/-- The session-controller state owned by `CanvasProvider`
(CanvasContext.tsx lines 52-63): the object list, the selection, the
command history ref, the reentrancy flag `isExecutingCommandRef`, and
whether a user is signed in. -/
structure SessionState where
  objects : List CanvasObject
  selectedId : Option String
  selectedIds : List String
  history : CommandHistory Cmd
  isExecuting : Bool
  hasUser : Bool
  currentUid : String
  deriving DecidableEq

/-- `clearSelection` (CanvasContext.tsx lines 261-264). -/
def CanvasContext.clearSelection (s : SessionState) : SessionState :=
  { s with selectedId := none, selectedIds := [] }

/-- `commandHistoryRef.current.executeCommand(command)` as called by the
intent handlers: the history phase, then the command execution against the
local store.  Note the handlers never touch `isExecutingCommandRef`. -/
def CanvasContext.sessionCommit (s : SessionState) (c : Cmd) (now : Nat) :
    SessionState × List FirestoreEffect :=
  let h := s.history.executeCommandLog c
  let r := c.executeLocal now s.objects
  ({ s with history := h, objects := r.1 }, r.2)

/-- `addObject` (CanvasContext.tsx lines 136-165).  The caller passes the
object template; `id`, `createdAt`, `lastModified` are stamped here and
falsy width/height default to 100.  A failed shared-store write is caught
and changes nothing locally, so it does not appear in the state. -/
def CanvasContext.addObject (s : SessionState) (object : CanvasObject)
    (newId : String) (now : Nat) : SessionState × List FirestoreEffect :=
  if s.hasUser = false ∨ s.isExecuting = true then (s, [])
  else
    let newObject := { object with
      id := newId, createdAt := now, lastModified := now,
      width := jsOr object.width 100, height := jsOr object.height 100 }
    CanvasContext.sessionCommit s (Cmd.addObj newObject) now

/-- `updateObject` (CanvasContext.tsx lines 167-197): reject when no user,
when the flag is up, or when the id does not exist; otherwise capture the
inverse payload from the existing object and commit an update command. -/
def CanvasContext.updateObject (s : SessionState) (id : String) (updates : ObjPatch)
    (now : Nat) : SessionState × List FirestoreEffect :=
  if s.hasUser = false ∨ s.isExecuting = true then (s, [])
  else
    match s.objects.find? (fun obj => obj.id == id) with
    | none => (s, [])
    | some existingObject =>
      let previousState := capturePatch existingObject updates
      CanvasContext.sessionCommit s (Cmd.updateObj id updates previousState) now

/-- `deleteObject` (CanvasContext.tsx lines 208-232). -/
def CanvasContext.deleteObject (s : SessionState) (id : String) (now : Nat) :
    SessionState × List FirestoreEffect :=
  if s.hasUser = false ∨ s.isExecuting = true then (s, [])
  else
    match s.objects.find? (fun obj => obj.id == id) with
    | none => (s, [])
    | some objectToDelete =>
      let s1 := if s.selectedId = some id then { s with selectedId := none } else s
      CanvasContext.sessionCommit s1 (Cmd.deleteObj objectToDelete) now

/-- `createGroup` (CanvasContext.tsx lines 266-353).  The only guards are a
signed-in user and at least two selected ids; the reentrancy flag is not
consulted.  On success the selection is cleared. -/
def CanvasContext.createGroup (s : SessionState) (gid : String) (now : Nat) :
    SessionState × List FirestoreEffect :=
  if s.hasUser = false ∨ s.selectedIds.length < 2 then (s, [])
  else
    let selectedObjects := s.objects.filter (fun obj => s.selectedIds.contains obj.id)
    let newGroupObject := mkGroupObject selectedObjects s.selectedIds s.currentUid gid now
    let r := CanvasContext.sessionCommit s (Cmd.createGroupCmd newGroupObject s.selectedIds) now
    (CanvasContext.clearSelection r.1, r.2)

/-- `undo` (CanvasContext.tsx lines 413-442): rejected while the flag is
up or when nothing is undoable; otherwise the flag is raised, the command
at the cursor is undone, the cursor retreats, the selection is cleared and
the flag is lowered again (the returned state has it back down).  An
out-of-range cursor would make the source throw before mutating anything;
the `catch` then leaves the state unchanged. -/
def CanvasContext.undo (s : SessionState) (now : Nat) :
    SessionState × List FirestoreEffect :=
  if s.isExecuting = true then (s, [])
  else if s.history.canUndo = false then (s, [])
  else
    match s.history.history[s.history.currentIndex.toNat]? with
    | none => (s, [])
    | some command =>
      let r := command.undoLocal now s.objects
      (CanvasContext.clearSelection
        { s with objects := r.1,
                 history := { s.history with currentIndex := s.history.currentIndex - 1 },
                 isExecuting := false }, r.2)

/-- `redo` (CanvasContext.tsx lines 445-474): symmetric to `undo`, moving
the cursor forward and executing the command now under it. -/
def CanvasContext.redo (s : SessionState) (now : Nat) :
    SessionState × List FirestoreEffect :=
  if s.isExecuting = true then (s, [])
  else if s.history.canRedo = false then (s, [])
  else
    match s.history.history[(s.history.currentIndex + 1).toNat]? with
    | none => (s, [])
    | some command =>
      let r := command.executeLocal now s.objects
      (CanvasContext.clearSelection
        { s with objects := r.1,
                 history := { s.history with currentIndex := s.history.currentIndex + 1 },
                 isExecuting := false }, r.2)

/-- Fixture: a 100 by 100 rectangle centered at the origin. -/
def objA : CanvasObject :=
  { id := "a", type := .rectangle, x := 0, y := 0, x2 := none, y2 := none,
    width := 100, height := 100, fill := "#ff0000", zIndex := 0,
    nickname := none, shadow := false, groupedObjects := none,
    createdAt := 0, lastModified := 0, createdBy := "u" }

/-- Fixture: a second rectangle with a distinct id. -/
def objB : CanvasObject :=
  { objA with id := "b", fill := "#00ff00", zIndex := 3 }

/-- Fixture: a circle of radius 50 centered at (200, 0). -/
def objCircle : CanvasObject :=
  { id := "c", type := .circle, x := 200, y := 0, x2 := none, y2 := none,
    width := 100, height := 100, fill := "#0000ff", zIndex := 1,
    nickname := none, shadow := false, groupedObjects := none,
    createdAt := 0, lastModified := 0, createdBy := "u" }

/-- Fixture: a line from (10, 10) to (0, 0) - the second endpoint has both
coordinates equal to 0 and therefore falsy in JS. -/
def objLineZero : CanvasObject :=
  { id := "l", type := .line, x := 10, y := 10, x2 := some 0, y2 := some 0,
    width := 0, height := 0, fill := "#000000", zIndex := 0,
    nickname := none, shadow := false, groupedObjects := none,
    createdAt := 0, lastModified := 0, createdBy := "u" }

/-- Fixture: a 2 by 2 rectangle centered at (10, 10). -/
def objRectSmall : CanvasObject :=
  { objA with id := "r", x := 10, y := 10, width := 2, height := 2 }

/-- Fixture: the patch setting `width` to 150. -/
def pw150 : ObjPatch := { width? := some 150 }

/-- Fixture: the empty fresh history. -/
def cleanHistory : CommandHistory Cmd := ⟨[], -1⟩

/-- Fixture: an idle session holding only `objA`. -/
def idleState : SessionState :=
  { objects := [objA], selectedId := none, selectedIds := [],
    history := cleanHistory, isExecuting := false, hasUser := true,
    currentUid := "u" }

/-- Fixture: a session whose in-flight flag is up (an undo or redo is
executing) with two rectangles selected. -/
def busyState : SessionState :=
  { objects := [objA, objB], selectedId := none, selectedIds := ["a", "b"],
    history := cleanHistory, isExecuting := true, hasUser := true,
    currentUid := "u" }

/-- Fixture: the store as it stands between the local mutation of the
width-150 field update and the resolution of its network write. -/
def midFlightObjs : List CanvasObject :=
  UpdateObjectCommand.executeLocal "a" pw150 1 [objA]

/-- Fixture: a full history (100 entries, cursor on the last) whose oldest
entry is the only add of `objA`. -/
def fullHistory : CommandHistory Cmd :=
  ⟨Cmd.addObj objA :: List.replicate 99 (Cmd.addObj objB), 99⟩

/-- The full `executeCommand` pipeline with the outcome of the awaited
`command.execute()` made explicit (commands.ts lines 597-615): the history
mutation happens before the await, so the resulting log state does not
depend on whether the execution settles or rejects. -/
def CommandHistory.executeCommandRun {α : Type} (h : CommandHistory α) (c : α)
    (execOk : Bool) : CommandHistory α × Bool :=
  (h.executeCommandLog c, execOk)

/-- The basic Operation Log invariant: cursor in `[-1, length)` and length
within the cap. -/
def LogInv {α : Type} (h : CommandHistory α) : Prop :=
  -1 ≤ h.currentIndex ∧ h.currentIndex < (h.history.length : Int)
    ∧ h.history.length ≤ maxHistorySize

/-- The no-redo property: `canRedo` is false and the cursor is in range. -/
def NoRedo {α : Type} (h : CommandHistory α) : Prop :=
  h.canRedo = false ∧ -1 ≤ h.currentIndex

/-- Option round trip used by the field-update inverse: applying a patch and
then the captured previous values restores the original field. -/
theorem getD_map_const {α : Type} (a : α) (p : Option α) :
    (p.map fun _ => a).getD (p.getD a) = a := by
  cases p <;> rfl

/-- Field-update round trip: executing a patch and then undoing with the
captured inverse restores every field except `lastModified`, which is set
to the undo timestamp. -/
theorem applyUpdates_roundtrip (o : CanvasObject) (p : ObjPatch) (t1 t2 : Nat) :
    applyUpdates (applyUpdates o p t1) (capturePatch o p) t2
      = { o with lastModified := t2 } := by
  cases o
  cases p
  simp [applyUpdates, applyPatch, capturePatch, getD_map_const]

/-- A field update never changes the object identifier. -/
theorem applyUpdates_id (o : CanvasObject) (p : ObjPatch) (t : Nat) :
    (applyUpdates o p t).id = o.id := rfl

/-- Filtering by a foreign id is the identity. -/
theorem filter_ne_id_of_fresh (o : CanvasObject) (objs : List CanvasObject)
    (hfresh : ∀ q ∈ objs, q.id ≠ o.id) :
    objs.filter (fun q => q.id != o.id) = objs := by
  refine List.filter_eq_self.mpr ?_
  intro q hq
  simpa [bne_iff_ne] using hfresh q hq

/-- After filtering an id out, no element with that id remains. -/
theorem any_filter_id_false (oid : String) (objs : List CanvasObject) :
    (objs.filter (fun q => q.id != oid)).any (fun q => q.id == oid) = false := by
  simp only [List.any_eq_false]
  intro q hq
  have := (List.mem_filter.mp hq).2
  simpa [bne_iff_ne] using this

/-- With globally unique identifiers, removing an object and re-appending
it is a permutation of the original list. -/
theorem filter_append_perm_of_unique (o : CanvasObject) (objs : List CanvasObject)
    (hmem : o ∈ objs) (huniq : List.Pairwise (fun a b => a.id ≠ b.id) objs) :
    (objs.filter (fun q => q.id != o.id) ++ [o]).Perm objs := by
  induction objs with
  | nil => cases hmem
  | cons a rest ih =>
    rcases List.mem_cons.mp hmem with rfl | hrest
    · have hfr : ∀ q ∈ rest, q.id ≠ o.id := by
        intro q hq
        exact fun h => (List.pairwise_cons.mp huniq).1 q hq h.symm
      have hid : (o.id != o.id) = false := by simp
      simp only [List.filter_cons, hid]
      rw [filter_ne_id_of_fresh o rest hfr]
      exact List.perm_append_singleton o rest
    · have hpair := List.pairwise_cons.mp huniq
      have hane : a.id ≠ o.id := hpair.1 o hrest
      have hid : (a.id != o.id) = true := by simpa [bne_iff_ne] using hane
      simp only [List.filter_cons, hid, List.cons_append]
      exact (ih hrest hpair.2).cons a

/-- A left fold of per-id updates over a list is the per-element fold. -/
theorem foldl_update_map (f : UpdateItem → CanvasObject → CanvasObject)
    (items : List UpdateItem) (objs : List CanvasObject) :
    items.foldl (fun acc it => acc.map (f it)) objs
      = objs.map (fun q => items.foldl (fun x it => f it x) q) := by
  induction items generalizing objs with
  | nil => simp
  | cons it rest ih =>
    simp only [List.foldl_cons]
    rw [ih (objs.map (f it)), List.map_map]
    rfl

/-- A right fold of per-id updates over a list is the per-element fold. -/
theorem foldr_update_map (f : UpdateItem → CanvasObject → CanvasObject)
    (items : List UpdateItem) (objs : List CanvasObject) :
    items.foldr (fun it acc => acc.map (f it)) objs
      = objs.map (fun q => items.foldr (fun it x => f it x) q) := by
  induction items with
  | nil => simp
  | cons it rest ih =>
    simp only [List.foldr_cons]
    rw [ih, List.map_map]
    rfl

/-- An element whose id matches no item is left alone by the execute fold. -/
theorem foldl_update_no_match (t : Nat) (g : UpdateItem → ObjPatch)
    (items : List UpdateItem) (x : CanvasObject)
    (h : ∀ it ∈ items, x.id ≠ it.id) :
    items.foldl (fun y it => if y.id = it.id then applyUpdates y (g it) t else y) x = x := by
  induction items with
  | nil => rfl
  | cons it rest ih =>
    simp only [List.foldl_cons, if_neg (h it (List.mem_cons_self it rest))]
    exact ih fun r hr => h r (List.mem_cons_of_mem it hr)

/-- An element whose id matches no item is left alone by the undo fold. -/
theorem foldr_update_no_match (t : Nat) (g : UpdateItem → ObjPatch)
    (items : List UpdateItem) (x : CanvasObject)
    (h : ∀ it ∈ items, x.id ≠ it.id) :
    items.foldr (fun it y => if y.id = it.id then applyUpdates y (g it) t else y) x = x := by
  induction items with
  | nil => rfl
  | cons it rest ih =>
    simp only [List.foldr_cons]
    rw [ih fun r hr => h r (List.mem_cons_of_mem it hr)]
    exact if_neg (h it (List.mem_cons_self it rest))

/-- Per-element round trip of a batched update: with pairwise distinct item
ids and inverse payloads captured from the element itself, executing all
items and undoing them in reverse order restores the element up to its
`lastModified` stamp; elements matched by no item are untouched. -/
theorem fold_update_roundtrip (items : List UpdateItem) (q : CanvasObject)
    (t1 t2 : Nat)
    (hdist : List.Pairwise (fun a b => a.id ≠ b.id) items)
    (hcap : ∀ it ∈ items, q.id = it.id → it.previousState = capturePatch q it.updates) :
    items.foldr (fun it x => if x.id = it.id then applyUpdates x it.previousState t2 else x)
      (items.foldl (fun x it => if x.id = it.id then applyUpdates x it.updates t1 else x) q)
    = if items.any (fun it => it.id == q.id) then { q with lastModified := t2 } else q := by
  induction items with
  | nil => rfl
  | cons it rest ih =>
    have hpair := List.pairwise_cons.mp hdist
    by_cases h : q.id = it.id
    · have hq1id : (applyUpdates q it.updates t1).id = q.id := applyUpdates_id q it.updates t1
      have hfr : ∀ r ∈ rest, (applyUpdates q it.updates t1).id ≠ r.id := by
        intro r hr
        rw [hq1id, h]
        exact hpair.1 r hr
      simp only [List.foldl_cons, if_pos h, List.foldr_cons]
      rw [foldl_update_no_match t1 (fun it2 => it2.updates) rest _ hfr,
        foldr_update_no_match t2 (fun it2 => it2.previousState) rest _ hfr,
        if_pos (hq1id.trans h),
        hcap it (List.mem_cons_self it rest) h,
        applyUpdates_roundtrip]
      have : (it.id == q.id) = true := by simp [h.symm]
      simp [this]
    · have hb : (it.id == q.id) = false := by
        simp only [beq_eq_false_iff_ne, ne_eq]
        exact fun he => h he.symm
      simp only [List.foldl_cons, if_neg h, List.foldr_cons]
      rw [ih hpair.2 fun r hr hq => hcap r (List.mem_cons_of_mem it hr) hq]
      by_cases hany : rest.any (fun it2 => it2.id == q.id) = true
      · simp only [hany, if_pos, List.any_cons, hb, Bool.false_or]
        exact if_neg fun he => h he
      · have hanyf : rest.any (fun it2 => it2.id == q.id) = false :=
          Bool.not_eq_true _ ▸ (Bool.eq_false_iff.mpr hany)
        simp only [hanyf, if_neg (Bool.false_ne_true), List.any_cons, hb, Bool.false_or]
        exact if_neg fun he => h he

/-- The truncate-and-append list is some prefix of length `cursor + 1`
followed by the new command, whenever the cursor is in range. -/
theorem truncAppend_split {α : Type} (h : CommandHistory α) (c : α)
    (h1 : -1 ≤ h.currentIndex) (h2 : h.currentIndex < (h.history.length : Int)) :
    ∃ tl : List α, h.truncAppend c = tl ++ [c]
      ∧ tl.length = (h.currentIndex + 1).toNat := by
  refine ⟨_, rfl, ?_⟩
  split
  · rw [List.length_take]
    exact min_eq_left (by omega)
  · omega

/-- Committing preserves the Operation Log invariant. -/
theorem logInv_executeCommandLog {α : Type} (h : CommandHistory α) (c : α)
    (hi : LogInv h) : LogInv (h.executeCommandLog c) := by
  obtain ⟨h1, h2, h3⟩ := hi
  obtain ⟨tl, hTA, hlen⟩ := truncAppend_split h c h1 h2
  have htl : tl.length ≤ maxHistorySize := by omega
  have hms : maxHistorySize = 100 := rfl
  unfold CommandHistory.executeCommandLog
  rw [hTA]
  split
  case isTrue hev =>
    simp only [List.length_append, List.length_singleton] at hev
    refine ⟨?_, ?_, ?_⟩ <;> dsimp only <;>
      first
      | omega
      | (simp only [List.length_drop, List.length_append, List.length_singleton]; omega)
  case isFalse hev =>
    simp only [List.length_append, List.length_singleton] at hev
    refine ⟨?_, ?_, ?_⟩ <;> dsimp only <;>
      first
      | omega
      | (simp only [List.length_append, List.length_singleton]; omega)

/-- The undo cursor move preserves the Operation Log invariant. -/
theorem logInv_undoLog {α : Type} (h : CommandHistory α) (hi : LogInv h) :
    LogInv h.undoLog := by
  obtain ⟨h1, h2, h3⟩ := hi
  unfold CommandHistory.undoLog
  split
  case isTrue hcu =>
    simp only [CommandHistory.canUndo, decide_eq_true_eq] at hcu
    exact ⟨by dsimp only; omega, by dsimp only; omega, h3⟩
  case isFalse hcu => exact ⟨h1, h2, h3⟩

/-- The redo cursor move preserves the Operation Log invariant. -/
theorem logInv_redoLog {α : Type} (h : CommandHistory α) (hi : LogInv h) :
    LogInv h.redoLog := by
  obtain ⟨h1, h2, h3⟩ := hi
  unfold CommandHistory.redoLog
  split
  case isTrue hcr =>
    simp only [CommandHistory.canRedo, decide_eq_true_eq] at hcr
    exact ⟨by dsimp only; omega, by dsimp only; omega, h3⟩
  case isFalse hcr => exact ⟨h1, h2, h3⟩

/-- Clearing preserves the Operation Log invariant. -/
theorem logInv_clearLog {α : Type} (h : CommandHistory α) :
    LogInv h.clearLog := by
  refine ⟨?_, ?_, ?_⟩ <;> simp [CommandHistory.clearLog, maxHistorySize]

/-- Every reachable Operation Log state satisfies the invariant. -/
theorem logInv_of_reachable {α : Type} (h : CommandHistory α)
    (hr : ReachableLog h) : LogInv h := by
  induction hr with
  | empty => refine ⟨?_, ?_, ?_⟩ <;> simp [maxHistorySize]
  | step op _ ih =>
    cases op with
    | commit c =>
      simp only [applyLog]
      exact logInv_executeCommandLog _ c ih
    | undoOp =>
      simp only [applyLog]
      exact logInv_undoLog _ ih
    | redoOp =>
      simp only [applyLog]
      exact logInv_redoLog _ ih
    | clearOp =>
      simp only [applyLog]
      exact logInv_clearLog _

/-- Committing always parks the cursor on the last entry: `canRedo` is
false immediately afterwards (only the cursor lower bound is needed). -/
theorem canRedo_executeCommandLog {α : Type} (h : CommandHistory α) (c : α)
    (h1 : -1 ≤ h.currentIndex) :
    (h.executeCommandLog c).canRedo = false
      ∧ -1 ≤ (h.executeCommandLog c).currentIndex := by
  have hTA : (¬ h.currentIndex < (h.history.length : Int) - 1
        ∧ ((h.truncAppend c).length : Int) = (h.history.length : Int) + 1)
      ∨ ((h.truncAppend c).length : Int) = h.currentIndex + 2 := by
    unfold CommandHistory.truncAppend
    by_cases htr : h.currentIndex < (h.history.length : Int) - 1
    · right
      rw [if_pos htr, List.length_append, List.length_take]
      have hle : (h.currentIndex + 1).toNat ≤ h.history.length := by omega
      rw [min_eq_left hle]
      simp only [List.length_singleton]
      push_cast
      omega
    · left
      rw [if_neg htr, List.length_append]
      refine ⟨htr, ?_⟩
      simp only [List.length_singleton]
      push_cast
      omega
  unfold CommandHistory.executeCommandLog
  split
  case isTrue hev =>
    refine ⟨?_, by dsimp only; omega⟩
    simp only [CommandHistory.canRedo, decide_eq_false_iff_not, not_lt]
    rw [List.length_drop]
    rcases hTA with ⟨hnt, he⟩ | he <;> omega
  case isFalse hev =>
    refine ⟨?_, by dsimp only; omega⟩
    simp only [CommandHistory.canRedo, decide_eq_false_iff_not, not_lt]
    rcases hTA with ⟨hnt, he⟩ | he <;> omega

/-- Every Operation Log call other than `undo` preserves the no-redo
property: commits park the cursor at the end, redo is a no-op without
redoable work, and clear empties the log. -/
theorem noRedo_applyLogs {α : Type} (h : CommandHistory α) (ops : List (LogOp α))
    (hstart : NoRedo h) (hno : LogOp.undoOp ∉ ops) : NoRedo (applyLogs h ops) := by
  induction ops generalizing h with
  | nil => exact hstart
  | cons op rest ih =>
    have hnr : LogOp.undoOp ∉ rest := fun hm => hno (List.mem_cons_of_mem op hm)
    have hop : (LogOp.undoOp : LogOp α) ≠ op := fun he => hno (he ▸ List.mem_cons_self op rest)
    cases op with
    | commit c =>
      exact ih (h.executeCommandLog c) (canRedo_executeCommandLog h c hstart.2) hnr
    | undoOp => exact absurd rfl hop
    | redoOp =>
      have hred : h.redoLog = h := by
        unfold CommandHistory.redoLog
        rw [hstart.1]
        simp
      show NoRedo (applyLogs h.redoLog rest)
      rw [hred]
      exact ih h hstart hnr
    | clearOp =>
      have hcl : NoRedo (h.clearLog) := by
        refine ⟨?_, ?_⟩
        · simp [CommandHistory.canRedo, CommandHistory.clearLog]
        · simp [CommandHistory.clearLog]
      show NoRedo (applyLogs h.clearLog rest)
      exact ih _ hcl hnr

/-- Committing a different command never brings an absent command back
into the history list. -/
theorem notMem_executeCommandLog {α : Type} (h : CommandHistory α) (c e : α)
    (he : e ∉ h.history) (hec : e ≠ c) : e ∉ (h.executeCommandLog c).history := by
  have hta : e ∉ h.truncAppend c := by
    unfold CommandHistory.truncAppend
    intro hmem
    rcases List.mem_append.mp hmem with hl | hr
    · refine he ?_
      revert hl
      split
      · exact fun hl => List.take_subset _ _ hl
      · exact fun hl => hl
    · exact hec (List.mem_singleton.mp hr)
  unfold CommandHistory.executeCommandLog
  split
  · exact fun hmem => hta (List.drop_subset _ _ hmem)
  · exact hta

/-- A command absent from the history stays absent under any sequence of
log calls that never commits it again. -/
theorem notMem_applyLogs {α : Type} (h : CommandHistory α) (ops : List (LogOp α))
    (e : α) (he : e ∉ h.history)
    (hops : ∀ c2, LogOp.commit c2 ∈ ops → c2 ≠ e) :
    e ∉ (applyLogs h ops).history := by
  induction ops generalizing h with
  | nil => exact he
  | cons op rest ih =>
    have hrest : ∀ c2, LogOp.commit c2 ∈ rest → c2 ≠ e :=
      fun c2 hm => hops c2 (List.mem_cons_of_mem op hm)
    cases op with
    | commit c =>
      refine ih (h.executeCommandLog c) ?_ hrest
      exact notMem_executeCommandLog h c e he
        fun hc => hops c (List.mem_cons_self _ _) hc.symm
    | undoOp =>
      refine ih h.undoLog ?_ hrest
      have : h.undoLog.history = h.history := by
        unfold CommandHistory.undoLog
        split <;> rfl
      rw [this]
      exact he
    | redoOp =>
      refine ih h.redoLog ?_ hrest
      have : h.redoLog.history = h.history := by
        unfold CommandHistory.redoLog
        split <;> rfl
      rw [this]
      exact he
    | clearOp =>
      refine ih h.clearLog ?_ hrest
      simp [CommandHistory.clearLog]

/-- After any in-range commit, `canUndo` holds and the command just
committed sits exactly under the cursor. -/
theorem executeCommandLog_cursor_target {α : Type} (h : CommandHistory α) (c : α)
    (h1 : -1 ≤ h.currentIndex) (h2 : h.currentIndex < (h.history.length : Int)) :
    (h.executeCommandLog c).canUndo = true
      ∧ (h.executeCommandLog c).history[(h.executeCommandLog c).currentIndex.toNat]?
          = some c := by
  obtain ⟨tl, hTA, hlen⟩ := truncAppend_split h c h1 h2
  unfold CommandHistory.executeCommandLog
  rw [hTA]
  split
  case isTrue hev =>
    rw [List.length_append, List.length_singleton] at hev
    have hpos : 1 ≤ tl.length := by
      have : maxHistorySize = 100 := rfl
      omega
    constructor
    · simp only [CommandHistory.canUndo, decide_eq_true_eq]
      omega
    · rw [List.drop_append_of_le_length hpos]
      have hidx : (h.currentIndex + 1 - 1).toNat = (tl.drop 1).length := by
        rw [List.length_drop]
        omega
      rw [hidx]
      exact List.getElem?_concat_length _ _
  case isFalse hev =>
    constructor
    · simp only [CommandHistory.canUndo, decide_eq_true_eq]
      omega
    · have hidx : (h.currentIndex + 1).toNat = tl.length := by omega
      rw [hidx]
      exact List.getElem?_concat_length _ _

/-- `v || 0` is the identity on numbers (`0 || 0` is `0`). -/
theorem jsOr_zero (v : Rat) : jsOr v 0 = v := by
  unfold jsOr
  split
  next h => exact h.symm
  next h => rfl

/-- A running maximum dominates its seed and every listed value. -/
theorem foldl_max_ge (l : List Rat) (a : Rat) :
    a ≤ l.foldl max a ∧ ∀ x ∈ l, x ≤ l.foldl max a := by
  induction l generalizing a with
  | nil => exact ⟨le_refl a, by simp⟩
  | cons b rest ih =>
    obtain ⟨hseed, hall⟩ := ih (max a b)
    refine ⟨le_trans (le_max_left a b) hseed, ?_⟩
    intro x hx
    rcases List.mem_cons.mp hx with rfl | hxr
    · exact le_trans (le_max_right a x) hseed
    · exact hall x hxr

/-- A running maximum is the seed or one of the listed values. -/
theorem foldl_max_mem (l : List Rat) (a : Rat) :
    l.foldl max a = a ∨ l.foldl max a ∈ l := by
  induction l generalizing a with
  | nil => exact Or.inl rfl
  | cons b rest ih =>
    rcases ih (max a b) with he | hm
    · rcases max_cases a b with ⟨hab, _⟩ | ⟨hab, _⟩
      · exact Or.inl (by rw [List.foldl_cons, he, hab])
      · refine Or.inr ?_
        rw [List.foldl_cons, he, hab]
        exact List.mem_cons_self b rest
    · exact Or.inr (List.mem_cons_of_mem b hm)

/-- Objects with present, nonzero second-endpoint coordinates (the only
case in which the falsy fallback differs) have the extent the spec words
describe. -/
theorem objExtent_eq_spec (o : CanvasObject)
    (hline : o.type = .line →
      (o.x2 ≠ none ∧ o.x2 ≠ some 0) ∧ (o.y2 ≠ none ∧ o.y2 ≠ some 0)) :
    objExtent o = specObjExtent o := by
  unfold objExtent specObjExtent
  by_cases ht : o.type = .line
  · obtain ⟨⟨hx2n, hx2z⟩, ⟨hy2n, hy2z⟩⟩ := hline ht
    rw [if_pos ht, if_pos ht]
    have hex : jsOrOpt o.x2 o.x = o.x2.getD o.x := by
      rcases hx : o.x2 with _ | v
      · rfl
      · have hv : v ≠ 0 := fun h0 => hx2z (by rw [hx, h0])
        simp [jsOrOpt, hv]
    have hey : jsOrOpt o.y2 o.y = o.y2.getD o.y := by
      rcases hy : o.y2 with _ | v
      · rfl
      · have hv : v ≠ 0 := fun h0 => hy2z (by rw [hy, h0])
        simp [jsOrOpt, hv]
    rw [hex, hey]
  · rw [if_neg ht, if_neg ht]

/-- Folding bounds unions over pointwise-equal extent functions agrees. -/
theorem foldl_merge_congr (f g : CanvasObject → Bounds) (ms : List CanvasObject)
    (b : Bounds) (h : ∀ o ∈ ms, f o = g o) :
    ms.foldl (fun acc o => mergeBounds acc (f o)) b
      = ms.foldl (fun acc o => mergeBounds acc (g o)) b := by
  induction ms generalizing b with
  | nil => rfl
  | cons o rest ih =>
    simp only [List.foldl_cons]
    rw [h o (List.mem_cons_self o rest)]
    exact ih _ fun r hr => h r (List.mem_cons_of_mem o hr)

/-- The bounds folds agree whenever the per-object extents agree. -/
theorem boundsOfNE_eq_spec (m : CanvasObject) (ms : List CanvasObject)
    (hm : objExtent m = specObjExtent m)
    (hms : ∀ o ∈ ms, objExtent o = specObjExtent o) :
    boundsOfNE m ms = specBoundsOfNE m ms := by
  unfold boundsOfNE specBoundsOfNE
  rw [hm]
  exact foldl_merge_congr objExtent specObjExtent ms (specObjExtent m) hms


/-- C1 counterexample: execute-then-undo does not restore the store
structurally.  Deleting the first of two objects and undoing re-appends it
at the end (list order changes), and a width field update undone at a
later timestamp leaves `lastModified` at the undo time instead of the
original value. -/
theorem C1_counterexample :
    DeleteObjectCommand.undoLocal objA
        (DeleteObjectCommand.executeLocal objA [objA, objB]) ≠ [objA, objB]
      ∧ UpdateObjectCommand.undoLocal "a" (capturePatch objA pw150) 2
        (UpdateObjectCommand.executeLocal "a" pw150 1 [objA]) ≠ [objA] := by
  refine ⟨?_, ?_⟩ <;> decide

/-- C1 (amended): execute-then-undo restores the Local State Store exactly
for Add and GroupCreate (fresh id); for Delete it restores the same
objects with their original field values but re-appends the deleted object
at the end of the list; for FieldUpdate and BatchFieldUpdate (pairwise
distinct target ids, inverse payloads captured from the stored objects) it
restores every patched field and leaves every other field unchanged,
except `lastModified`, which is set to the undo timestamp. -/
theorem C1_execute_undo_roundtrip :
    (∀ (o : CanvasObject) (objs : List CanvasObject), (∀ q ∈ objs, q.id ≠ o.id) →
      AddObjectCommand.undoLocal o (AddObjectCommand.executeLocal o objs) = objs)
    ∧ (∀ (g : CanvasObject) (objs : List CanvasObject), (∀ q ∈ objs, q.id ≠ g.id) →
      CreateGroupCommand.undoLocal g (CreateGroupCommand.executeLocal g objs) = objs)
    ∧ (∀ (o : CanvasObject) (objs : List CanvasObject), o ∈ objs →
        List.Pairwise (fun a b => a.id ≠ b.id) objs →
      DeleteObjectCommand.undoLocal o (DeleteObjectCommand.executeLocal o objs)
          = objs.filter (fun q => q.id != o.id) ++ [o]
        ∧ (DeleteObjectCommand.undoLocal o (DeleteObjectCommand.executeLocal o objs)).Perm objs)
    ∧ (∀ (objs : List CanvasObject) (id : String) (p : ObjPatch) (t1 t2 : Nat)
        (o : CanvasObject), (∀ q ∈ objs, q.id = id → q = o) →
      UpdateObjectCommand.undoLocal id (capturePatch o p) t2
          (UpdateObjectCommand.executeLocal id p t1 objs)
        = objs.map fun q => if q.id = id then { q with lastModified := t2 } else q)
    ∧ (∀ (items : List UpdateItem) (objs : List CanvasObject) (t1 t2 : Nat),
        List.Pairwise (fun a b => a.id ≠ b.id) items →
        (∀ it ∈ items, ∀ q ∈ objs, q.id = it.id →
          it.previousState = capturePatch q it.updates) →
      UpdateMultipleObjectsCommand.undoLocal items t2
          (UpdateMultipleObjectsCommand.executeLocal items t1 objs)
        = objs.map fun q =>
            if items.any (fun it => it.id == q.id)
            then { q with lastModified := t2 } else q) := by
  refine ⟨?_, ?_, ?_, ?_, ?_⟩
  · intro o objs hfresh
    have hany : objs.any (fun q => q.id == o.id) = false := by
      simp only [List.any_eq_false]
      intro q hq
      simpa [bne_iff_ne] using hfresh q hq
    unfold AddObjectCommand.executeLocal AddObjectCommand.undoLocal
    rw [hany]
    simp only [Bool.false_eq_true, if_false, List.filter_append]
    rw [filter_ne_id_of_fresh o objs hfresh]
    simp
  · intro g objs hfresh
    have hany : objs.any (fun q => q.id == g.id) = false := by
      simp only [List.any_eq_false]
      intro q hq
      simpa [bne_iff_ne] using hfresh q hq
    unfold CreateGroupCommand.executeLocal CreateGroupCommand.undoLocal
    rw [hany]
    simp only [Bool.false_eq_true, if_false, List.filter_append]
    rw [filter_ne_id_of_fresh g objs hfresh]
    simp
  · intro o objs hmem huniq
    have hstep : DeleteObjectCommand.undoLocal o (DeleteObjectCommand.executeLocal o objs)
        = objs.filter (fun q => q.id != o.id) ++ [o] := by
      unfold DeleteObjectCommand.executeLocal DeleteObjectCommand.undoLocal
      rw [any_filter_id_false]
      simp
    exact ⟨hstep, hstep ▸ filter_append_perm_of_unique o objs hmem huniq⟩
  · intro objs id p t1 t2 o hmatch
    unfold UpdateObjectCommand.executeLocal UpdateObjectCommand.undoLocal
    rw [List.map_map]
    refine List.map_congr_left ?_
    intro q hq
    simp only [Function.comp]
    by_cases hid : q.id = id
    · rw [if_pos hid, if_pos (by rw [applyUpdates_id]; exact hid)]
      have hqo : q = o := hmatch q hq hid
      subst hqo
      rw [applyUpdates_roundtrip, if_pos hid]
    · rw [if_neg hid, if_neg hid, if_neg hid]
  · intro items objs t1 t2 hdist hcap
    have hexe : UpdateMultipleObjectsCommand.executeLocal items t1 objs
        = objs.map fun q =>
            items.foldl (fun x it => if x.id = it.id then applyUpdates x it.updates t1 else x) q := by
      unfold UpdateMultipleObjectsCommand.executeLocal UpdateObjectCommand.executeLocal
      exact foldl_update_map
        (fun it x => if x.id = it.id then applyUpdates x it.updates t1 else x) items objs
    have hund : ∀ L : List CanvasObject,
        UpdateMultipleObjectsCommand.undoLocal items t2 L
          = L.map fun q =>
              items.foldr (fun it x => if x.id = it.id then applyUpdates x it.previousState t2 else x) q := by
      intro L
      unfold UpdateMultipleObjectsCommand.undoLocal UpdateObjectCommand.undoLocal
      exact foldr_update_map
        (fun it x => if x.id = it.id then applyUpdates x it.previousState t2 else x) items L
    rw [hexe, hund, List.map_map]
    refine List.map_congr_left ?_
    intro q hq
    simp only [Function.comp]
    exact fold_update_roundtrip items q t1 t2 hdist
      fun it hit hidq => hcap it hit q hq hidq

/-- C1 witness: the amended round-trip statement at concrete inputs - an
add of `objB` over `[objA]`, a group insert of the same shape, a delete of
`objA` from `[objA, objB]`, a width update of `objA`, and a one-item batch
of the same update. -/
theorem C1_execute_undo_roundtrip_witness :
    AddObjectCommand.undoLocal objB (AddObjectCommand.executeLocal objB [objA]) = [objA]
    ∧ CreateGroupCommand.undoLocal objB (CreateGroupCommand.executeLocal objB [objA]) = [objA]
    ∧ (DeleteObjectCommand.undoLocal objA (DeleteObjectCommand.executeLocal objA [objA, objB])
        = [objA, objB].filter (fun q => q.id != objA.id) ++ [objA]
      ∧ (DeleteObjectCommand.undoLocal objA
          (DeleteObjectCommand.executeLocal objA [objA, objB])).Perm [objA, objB])
    ∧ UpdateObjectCommand.undoLocal "a" (capturePatch objA pw150) 2
        (UpdateObjectCommand.executeLocal "a" pw150 1 [objA])
      = [objA].map (fun q => if q.id = "a" then { q with lastModified := 2 } else q)
    ∧ UpdateMultipleObjectsCommand.undoLocal [⟨"a", pw150, capturePatch objA pw150⟩] 2
        (UpdateMultipleObjectsCommand.executeLocal [⟨"a", pw150, capturePatch objA pw150⟩] 1 [objA])
      = [objA].map (fun q =>
          if [(⟨"a", pw150, capturePatch objA pw150⟩ : UpdateItem)].any (fun it => it.id == q.id)
          then { q with lastModified := 2 } else q) :=
  ⟨C1_execute_undo_roundtrip.1 objB [objA] (by decide),
   C1_execute_undo_roundtrip.2.1 objB [objA] (by decide),
   C1_execute_undo_roundtrip.2.2.1 objA [objA, objB] (by decide) (by decide),
   C1_execute_undo_roundtrip.2.2.2.1 [objA] "a" pw150 1 2 objA (by decide),
   C1_execute_undo_roundtrip.2.2.2.2 [⟨"a", pw150, capturePatch objA pw150⟩] [objA] 1 2
     (by decide) (by decide)⟩

/-- C2 (code bug): evaluation at the failing scenario.  A width 100 to 150
field update is committed from the idle session; the resulting state still
has the reentrancy flag down, because only `undo`/`redo` ever raise it.  A
stale snapshot (the old width) arriving before the write resolves is
therefore not discarded: `setObjects` replaces the store with it, although
discarding is exactly what happens when the flag is up, as the comment in
`setObjects` intends for every command execution. -/
theorem C2_inflight_snapshot_bug :
    (CanvasContext.updateObject idleState "a" pw150 1).1.isExecuting = false
    ∧ (CanvasContext.updateObject idleState "a" pw150 1).1.objects = midFlightObjs
    ∧ CanvasContext.setObjects false midFlightObjs [objA] = ([objA], .replaced)
    ∧ midFlightObjs ≠ [objA]
    ∧ CanvasContext.setObjects true midFlightObjs [objA] = (midFlightObjs, .skippedInFlight) := by
  refine ⟨?_, ?_, ?_, ?_, ?_⟩ <;> decide

/-- C3 counterexample: with the in-flight flag up (an undo or redo
executing), a `createGroup` intent is not rejected - the store gains the
group object and a shared-store write is issued, because `createGroup`
never consults the flag. -/
theorem C3_counterexample :
    busyState.isExecuting = true
    ∧ (CanvasContext.createGroup busyState "g" 5).1.objects ≠ busyState.objects
    ∧ (CanvasContext.createGroup busyState "g" 5).2 ≠ [] := by
  refine ⟨?_, ?_, ?_⟩ <;> decide

/-- C3 (amended): while the in-flight flag is up - which the source raises
only for the duration of `undo` and `redo` - new add, update, delete,
undo and redo intents are rejected as complete no-ops (state, Operation
Log and shared store untouched); `createGroup` does not consult the flag
and is not rejected. -/
theorem C3_guard_rejects_intents :
    ∀ s : SessionState, s.isExecuting = true →
      (∀ (o : CanvasObject) (newId : String) (now : Nat),
        CanvasContext.addObject s o newId now = (s, []))
      ∧ (∀ (id : String) (p : ObjPatch) (now : Nat),
        CanvasContext.updateObject s id p now = (s, []))
      ∧ (∀ (id : String) (now : Nat), CanvasContext.deleteObject s id now = (s, []))
      ∧ (∀ now : Nat, CanvasContext.undo s now = (s, []))
      ∧ (∀ now : Nat, CanvasContext.redo s now = (s, [])) := by
  intro s hexec
  refine ⟨?_, ?_, ?_, ?_, ?_⟩
  · intro o newId now
    unfold CanvasContext.addObject
    rw [if_pos (Or.inr hexec)]
  · intro id p now
    unfold CanvasContext.updateObject
    rw [if_pos (Or.inr hexec)]
  · intro id now
    unfold CanvasContext.deleteObject
    rw [if_pos (Or.inr hexec)]
  · intro now
    unfold CanvasContext.undo
    rw [if_pos hexec]
  · intro now
    unfold CanvasContext.redo
    rw [if_pos hexec]

/-- C3 witness: the rejected intents evaluated on the busy session. -/
theorem C3_guard_rejects_intents_witness :
    CanvasContext.addObject busyState objCircle "n" 7 = (busyState, [])
    ∧ CanvasContext.updateObject busyState "a" pw150 7 = (busyState, [])
    ∧ CanvasContext.deleteObject busyState "a" 7 = (busyState, [])
    ∧ CanvasContext.undo busyState 7 = (busyState, [])
    ∧ CanvasContext.redo busyState 7 = (busyState, []) :=
  ⟨(C3_guard_rejects_intents busyState (by decide)).1 objCircle "n" 7,
   (C3_guard_rejects_intents busyState (by decide)).2.1 "a" pw150 7,
   (C3_guard_rejects_intents busyState (by decide)).2.2.1 "a" 7,
   (C3_guard_rejects_intents busyState (by decide)).2.2.2.1 7,
   (C3_guard_rejects_intents busyState (by decide)).2.2.2.2 7⟩

/-- C4: in every reachable Operation Log state the cursor lies in
`[-1, length)` (hence `-1` exactly when the log is empty) and the length
never exceeds the cap of 100; when a commit overflows the cap the oldest
entry is removed and the cursor net-decremented (advance then decrement),
and an evicted command that is not recommitted never reappears in the
history, so no later undo can reach it. -/
theorem C4_log_invariants :
    (∀ h : CommandHistory Cmd, ReachableLog h →
      -1 ≤ h.currentIndex ∧ h.currentIndex < (h.history.length : Int)
        ∧ h.history.length ≤ maxHistorySize)
    ∧ (∀ (h : CommandHistory Cmd) (c e : Cmd) (rest : List Cmd),
        (h.truncAppend c).length > maxHistorySize →
        h.truncAppend c = e :: rest →
        h.executeCommandLog c = ⟨rest, h.currentIndex⟩)
    ∧ (∀ (h : CommandHistory Cmd) (c e : Cmd) (rest : List Cmd),
        (h.truncAppend c).length > maxHistorySize →
        h.truncAppend c = e :: rest → e ∉ rest →
        ∀ ops : List (LogOp Cmd), (∀ c2, LogOp.commit c2 ∈ ops → c2 ≠ e) →
          e ∉ (applyLogs (h.executeCommandLog c) ops).history) := by
  have hevict : ∀ (h : CommandHistory Cmd) (c e : Cmd) (rest : List Cmd),
      (h.truncAppend c).length > maxHistorySize →
      h.truncAppend c = e :: rest →
      h.executeCommandLog c = ⟨rest, h.currentIndex⟩ := by
    intro h c e rest hev hsplit
    unfold CommandHistory.executeCommandLog
    rw [if_pos hev, hsplit]
    congr 1
    omega
  refine ⟨fun h hr => logInv_of_reachable h hr, hevict, ?_⟩
  intro h c e rest hev hsplit hnot ops hops
  rw [hevict h c e rest hev hsplit]
  exact notMem_applyLogs _ ops e hnot hops

/-- C4 witness: the invariant on the reachable one-commit log, and the
eviction behaviour on a full 100-entry history whose oldest entry is the
only add of `objA`. -/
theorem C4_log_invariants_witness :
    (-1 ≤ (applyLog (⟨[], -1⟩ : CommandHistory Cmd)
        (LogOp.commit (Cmd.addObj objA))).currentIndex
      ∧ (applyLog (⟨[], -1⟩ : CommandHistory Cmd)
          (LogOp.commit (Cmd.addObj objA))).currentIndex
        < ((applyLog (⟨[], -1⟩ : CommandHistory Cmd)
            (LogOp.commit (Cmd.addObj objA))).history.length : Int)
      ∧ (applyLog (⟨[], -1⟩ : CommandHistory Cmd)
          (LogOp.commit (Cmd.addObj objA))).history.length ≤ maxHistorySize)
    ∧ fullHistory.executeCommandLog (Cmd.deleteObj objA)
        = ⟨List.replicate 99 (Cmd.addObj objB) ++ [Cmd.deleteObj objA], 99⟩
    ∧ Cmd.addObj objA ∉ (applyLogs
        (fullHistory.executeCommandLog (Cmd.deleteObj objA)) [LogOp.undoOp]).history :=
  ⟨C4_log_invariants.1 _ (ReachableLog.step (LogOp.commit (Cmd.addObj objA)) ReachableLog.empty),
   C4_log_invariants.2.1 fullHistory (Cmd.deleteObj objA) (Cmd.addObj objA)
     (List.replicate 99 (Cmd.addObj objB) ++ [Cmd.deleteObj objA]) (by decide) (by decide),
   C4_log_invariants.2.2 fullHistory (Cmd.deleteObj objA) (Cmd.addObj objA)
     (List.replicate 99 (Cmd.addObj objB) ++ [Cmd.deleteObj objA]) (by decide) (by decide)
     (by decide) [LogOp.undoOp] (by intro c2 hc2; simp at hc2)⟩

/-- C5: committing a new Operation discards everything after the cursor,
so `canRedo` is false immediately after any commit and stays false under
any further log calls that include no undo. -/
theorem C5_commit_invalidates_redo :
    ∀ (h : CommandHistory Cmd) (c : Cmd), -1 ≤ h.currentIndex →
      (h.executeCommandLog c).canRedo = false
      ∧ ∀ ops : List (LogOp Cmd), LogOp.undoOp ∉ ops →
          (applyLogs (h.executeCommandLog c) ops).canRedo = false := by
  intro h c h1
  have hstart := canRedo_executeCommandLog h c h1
  exact ⟨hstart.1, fun ops hno => (noRedo_applyLogs _ ops hstart hno).1⟩

/-- C5 witness: a commit on the fresh log, followed by another commit, a
redo and a clear - `canRedo` stays false throughout. -/
theorem C5_commit_invalidates_redo_witness :
    (cleanHistory.executeCommandLog (Cmd.addObj objA)).canRedo = false
    ∧ (applyLogs (cleanHistory.executeCommandLog (Cmd.addObj objA))
        [LogOp.commit (Cmd.addObj objB), LogOp.redoOp, LogOp.clearOp]).canRedo = false :=
  ⟨(C5_commit_invalidates_redo cleanHistory (Cmd.addObj objA) (by decide)).1,
   (C5_commit_invalidates_redo cleanHistory (Cmd.addObj objA) (by decide)).2
     [LogOp.commit (Cmd.addObj objB), LogOp.redoOp, LogOp.clearOp] (by decide)⟩

/-- C6 counterexample: the bounding box is not computed by the spec extent
rules as stated.  For a line ending at the origin (`x2 = y2 = 0`, falsy in
JS) grouped with a small rectangle, the source falls back to the line
start point and produces a box different from the both-endpoints rule. -/
theorem C6_counterexample :
    ((mkGroupObject [objLineZero, objRectSmall] ["l", "r"] "u" "g" 0).x,
     (mkGroupObject [objLineZero, objRectSmall] ["l", "r"] "u" "g" 0).y,
     (mkGroupObject [objLineZero, objRectSmall] ["l", "r"] "u" "g" 0).width,
     (mkGroupObject [objLineZero, objRectSmall] ["l", "r"] "u" "g" 0).height)
    ≠ specGroupBox objLineZero [objRectSmall] := by
  simp +decide only [mkGroupObject, boundsOfNE, objExtent, mergeBounds,
    objLineZero, objRectSmall, specGroupBox, specBoundsOfNE, specObjExtent,
    groupPadding, jsOr, jsOrOpt, List.foldl_cons, List.foldl_nil]
  norm_num [min_def, max_def]

/-- C6 (amended): the group box of the claimed example (100 by 100
rectangle at the origin, radius-50 circle at (200, 0)) is exactly
`x = 100`, `y = 0`, `width = 340`, `height = 140`; and in general the
padded box agrees with the spec extent rules whenever every line member
has both second-endpoint coordinates present and nonzero (a zero or
absent coordinate falls back to the corresponding first-endpoint
coordinate - JS falsy semantics). -/
theorem C6_group_bounds :
    (∀ (ids : List String) (uid gid : String) (now : Nat),
      (mkGroupObject [objA, objCircle] ids uid gid now).x = 100
      ∧ (mkGroupObject [objA, objCircle] ids uid gid now).y = 0
      ∧ (mkGroupObject [objA, objCircle] ids uid gid now).width = 340
      ∧ (mkGroupObject [objA, objCircle] ids uid gid now).height = 140)
    ∧ (∀ (m : CanvasObject) (ms : List CanvasObject) (ids : List String)
        (uid gid : String) (now : Nat),
        (∀ o ∈ m :: ms, o.type = .line →
          (o.x2 ≠ none ∧ o.x2 ≠ some 0) ∧ (o.y2 ≠ none ∧ o.y2 ≠ some 0)) →
        ((mkGroupObject (m :: ms) ids uid gid now).x,
         (mkGroupObject (m :: ms) ids uid gid now).y,
         (mkGroupObject (m :: ms) ids uid gid now).width,
         (mkGroupObject (m :: ms) ids uid gid now).height) = specGroupBox m ms) := by
  constructor
  · intro ids uid gid now
    refine ⟨?_, ?_, ?_, ?_⟩ <;>
      · simp +decide only [mkGroupObject, boundsOfNE, objExtent, mergeBounds, objA,
          objCircle, groupPadding, jsOr, jsOrOpt, List.foldl_cons, List.foldl_nil]
        norm_num [min_def, max_def]
  · intro m ms ids uid gid now hline
    have hb : boundsOfNE m ms = specBoundsOfNE m ms :=
      boundsOfNE_eq_spec m ms
        (objExtent_eq_spec m (hline m (List.mem_cons_self m ms)))
        fun o ho => objExtent_eq_spec o (hline o (List.mem_cons_of_mem m ho))
    simp only [mkGroupObject, specGroupBox]
    rw [hb]

/-- C6 witness: the general agreement applied to the rectangle-and-circle
example (no line members, so the endpoint proviso is vacuous). -/
theorem C6_group_bounds_witness :
    ((mkGroupObject [objA, objCircle] ["a", "c"] "u" "g" 0).x,
     (mkGroupObject [objA, objCircle] ["a", "c"] "u" "g" 0).y,
     (mkGroupObject [objA, objCircle] ["a", "c"] "u" "g" 0).width,
     (mkGroupObject [objA, objCircle] ["a", "c"] "u" "g" 0).height)
    = specGroupBox objA [objCircle] :=
  C6_group_bounds.2 objA [objCircle] ["a", "c"] "u" "g" 0 (by decide)

/-- C7: the group object created over a nonempty member list takes the
z-order of a maximal member (a member whose z-order dominates every
member) plus one - that is, exactly one greater than the maximum member
z-order. -/
theorem C7_group_zindex :
    ∀ (m : CanvasObject) (ms : List CanvasObject) (ids : List String)
      (uid gid : String) (now : Nat),
      ∃ o ∈ m :: ms,
        (mkGroupObject (m :: ms) ids uid gid now).zIndex = o.zIndex + 1
        ∧ ∀ q ∈ m :: ms, q.zIndex ≤ o.zIndex := by
  intro m ms ids uid gid now
  have hz : (mkGroupObject (m :: ms) ids uid gid now).zIndex
      = (ms.map fun r => jsOr r.zIndex 0).foldl max (jsOr m.zIndex 0) + 1 := by
    simp only [mkGroupObject]
  have hge := foldl_max_ge (ms.map fun r => jsOr r.zIndex 0) (jsOr m.zIndex 0)
  have hall : ∀ q ∈ m :: ms,
      q.zIndex ≤ (ms.map fun r => jsOr r.zIndex 0).foldl max (jsOr m.zIndex 0) := by
    intro q hq
    rcases List.mem_cons.mp hq with rfl | hqm
    · calc q.zIndex = jsOr q.zIndex 0 := (jsOr_zero q.zIndex).symm
        _ ≤ (ms.map fun r => jsOr r.zIndex 0).foldl max (jsOr q.zIndex 0) := hge.1
    · calc q.zIndex = jsOr q.zIndex 0 := (jsOr_zero q.zIndex).symm
        _ ≤ (ms.map fun r => jsOr r.zIndex 0).foldl max (jsOr m.zIndex 0) :=
            hge.2 (jsOr q.zIndex 0) (List.mem_map.mpr ⟨q, hqm, rfl⟩)
  rcases foldl_max_mem (ms.map fun r => jsOr r.zIndex 0) (jsOr m.zIndex 0) with he | hm
  · refine ⟨m, List.mem_cons_self m ms, ?_, ?_⟩
    · rw [hz, he, jsOr_zero]
    · intro q hq
      have hqle := hall q hq
      rw [he, jsOr_zero] at hqle
      exact hqle
  · obtain ⟨o, ho, hoe⟩ := List.mem_map.mp hm
    refine ⟨o, List.mem_cons_of_mem m ho, ?_, ?_⟩
    · rw [hz, ← hoe, jsOr_zero]
    · intro q hq
      have hqle := hall q hq
      rw [← hoe, jsOr_zero] at hqle
      exact hqle

/-- C7 witness: on the two-rectangle group (member z-orders 0 and 3) some
member dominates both members and the group z-order is that member plus
one. -/
theorem C7_group_zindex_witness :
    ∃ o ∈ [objA, objB],
      (mkGroupObject [objA, objB] ["a", "b"] "u" "g" 0).zIndex = o.zIndex + 1
      ∧ ∀ q ∈ [objA, objB], q.zIndex ≤ o.zIndex :=
  C7_group_zindex objA [objB] ["a", "b"] "u" "g" 0

/-- C8: a snapshot structurally equal to the current store is discarded as
a no-op - the previous list itself is returned and the path taken is the
identity skip; conversely that path is taken only on structural equality,
so the stringify check detects exactly structural equality. -/
theorem C8_identical_snapshot_noop :
    (∀ prev snap : List CanvasObject, prev = snap →
      CanvasContext.setObjects false prev snap = (prev, .skippedIdentical))
    ∧ (∀ prev snap : List CanvasObject,
        (CanvasContext.setObjects false prev snap).2 = .skippedIdentical →
        prev = snap) := by
  constructor
  · intro prev snap he
    simp [CanvasContext.setObjects, he]
  · intro prev snap h2
    by_contra hne
    simp [CanvasContext.setObjects, hne] at h2

/-- C8 witness: an echoed two-object snapshot is kept as the previous
reference, and the skip-identical path forces equality. -/
theorem C8_identical_snapshot_noop_witness :
    CanvasContext.setObjects false [objA, objB] [objA, objB]
      = ([objA, objB], .skippedIdentical)
    ∧ [objA] = [objA] :=
  ⟨C8_identical_snapshot_noop.1 [objA, objB] [objA, objB] rfl,
   C8_identical_snapshot_noop.2 [objA] [objA] (by decide)⟩

/-- C9: a group intent with fewer than two selected ids, and update or
delete intents naming an id absent from the store, are rejected
synchronously - the session state (store, log, selection, flag) is
returned unchanged and no shared-store effect is issued. -/
theorem C9_precondition_rejection :
    (∀ (s : SessionState) (gid : String) (now : Nat), s.selectedIds.length < 2 →
      CanvasContext.createGroup s gid now = (s, []))
    ∧ (∀ (s : SessionState) (id : String) (p : ObjPatch) (now : Nat),
        s.objects.find? (fun obj => obj.id == id) = none →
        CanvasContext.updateObject s id p now = (s, []))
    ∧ (∀ (s : SessionState) (id : String) (now : Nat),
        s.objects.find? (fun obj => obj.id == id) = none →
        CanvasContext.deleteObject s id now = (s, [])) := by
  refine ⟨?_, ?_, ?_⟩
  · intro s gid now hlt
    unfold CanvasContext.createGroup
    rw [if_pos (Or.inr hlt)]
  · intro s id p now hfind
    unfold CanvasContext.updateObject
    by_cases hg : s.hasUser = false ∨ s.isExecuting = true
    · rw [if_pos hg]
    · rw [if_neg hg, hfind]
  · intro s id now hfind
    unfold CanvasContext.deleteObject
    by_cases hg : s.hasUser = false ∨ s.isExecuting = true
    · rw [if_pos hg]
    · rw [if_neg hg, hfind]

/-- C9 witness: the idle session (nothing selected, store `[objA]`)
rejects a group intent and update/delete intents naming the absent id
`zz`. -/
theorem C9_precondition_rejection_witness :
    CanvasContext.createGroup idleState "g" 3 = (idleState, [])
    ∧ CanvasContext.updateObject idleState "zz" pw150 3 = (idleState, [])
    ∧ CanvasContext.deleteObject idleState "zz" 3 = (idleState, []) :=
  ⟨C9_precondition_rejection.1 idleState "g" 3 (by decide),
   C9_precondition_rejection.2.1 idleState "zz" pw150 3 (by decide),
   C9_precondition_rejection.2.2 idleState "zz" 3 (by decide)⟩

/-- C10: the commit pipeline mutates the Operation Log before awaiting the
execution, and the resulting log does not depend on whether the execution
settles or rejects; in particular after a rejected execution the failed
command still sits in the log - `canUndo` holds and the entry under the
cursor is exactly that command. -/
theorem C10_failed_commit_remains :
    ∀ (h : CommandHistory Cmd) (c : Cmd) (execOk : Bool),
      -1 ≤ h.currentIndex → h.currentIndex < (h.history.length : Int) →
      (h.executeCommandRun c execOk).1 = (h.executeCommandRun c false).1
      ∧ (h.executeCommandRun c false).1.canUndo = true
      ∧ (h.executeCommandRun c false).1.history[
          (h.executeCommandRun c false).1.currentIndex.toNat]? = some c := by
  intro h c execOk h1 h2
  exact ⟨rfl, (executeCommandLog_cursor_target h c h1 h2).1,
    (executeCommandLog_cursor_target h c h1 h2).2⟩

/-- C10 witness: a failing add committed on the fresh log stays undoable
at the cursor. -/
theorem C10_failed_commit_remains_witness :
    (cleanHistory.executeCommandRun (Cmd.addObj objA) true).1
      = (cleanHistory.executeCommandRun (Cmd.addObj objA) false).1
    ∧ (cleanHistory.executeCommandRun (Cmd.addObj objA) false).1.canUndo = true
    ∧ (cleanHistory.executeCommandRun (Cmd.addObj objA) false).1.history[
        (cleanHistory.executeCommandRun (Cmd.addObj objA) false).1.currentIndex.toNat]?
      = some (Cmd.addObj objA) :=
  C10_failed_commit_remains cleanHistory (Cmd.addObj objA) true (by decide) (by decide)
